import Mathlib

/- Formal model of sccourses.py, a scraper that extracts Seattle Colleges
course offerings and exports them to CSV.  Text-level functions are embedded
over `List Char`; the ASCII character classes below model the Python regex
classes used by the source.  Browser effects (clicks, waits, logging) are not
modelled; each function receives the text the driver would have extracted. -/

/-- Python regex class [A-Za-z] (ASCII letters). -/
def isAsciiLetter (c : Char) : Bool :=
  (65 ≤ c.toNat && c.toNat ≤ 90) || (97 ≤ c.toNat && c.toNat ≤ 122)

/-- Python regex class [A-Za-z&] used by the prerequisite pattern. -/
def isLetterAmp (c : Char) : Bool := isAsciiLetter c || c == '&'

/-- Python regex class \d on the ASCII digits. -/
def isDigitCh (c : Char) : Bool := 48 ≤ c.toNat && c.toNat ≤ 57

/-- Python `needle in haystack` substring test. -/
def isSubstr (needle : List Char) : List Char → Bool
  | [] => needle.isEmpty
  | c :: t => needle.isPrefixOf (c :: t) || isSubstr needle t

/-- Python `str.split(sep)` for a non-empty separator: cut at each leftmost,
non-overlapping occurrence.  The fuel argument bounds the recursion depth;
`pySplit` supplies fuel that provably cannot run out (every step consumes at
least one character). -/
def splitOnF (sep : List Char) : Nat → List Char → List (List Char)
  | 0, cs => [cs]
  | _ + 1, [] => [[]]
  | fuel + 1, c :: t =>
    if sep.isPrefixOf (c :: t) then
      [] :: splitOnF sep fuel ((c :: t).drop sep.length)
    else
      match splitOnF sep fuel t with
      | [] => [[c]]
      | h :: r => (c :: h) :: r

/-- Python `str.split(sep)`. -/
def pySplit (sep : List Char) (cs : List Char) : List (List Char) :=
  splitOnF sep (cs.length + 1) cs

/-- Python `str.replace(pat, '')`: delete every leftmost, non-overlapping
occurrence of `pat`, fuelled as in `splitOnF`. -/
def removeAllF (pat : List Char) : Nat → List Char → List Char
  | 0, cs => cs
  | _ + 1, [] => []
  | fuel + 1, c :: t =>
    if pat.isPrefixOf (c :: t) then removeAllF pat fuel ((c :: t).drop pat.length)
    else c :: removeAllF pat fuel t

/-- Python `str.replace(pat, '')`. -/
def pyRemoveAll (pat cs : List Char) : List Char := removeAllF pat (cs.length + 1) cs

/-- One attempt of the compiled pattern (([A-Za-z&]+) *\d+(?!\.)) anchored at
the start of `cs`: returns (group 1, group 2, rest after the match) on
success.  The greedy runs never need backtracking except for the negative
lookahead: when the digit run is immediately followed by '.', the engine
gives back one digit, which succeeds exactly when at least two digits were
read. -/
def tryMatchAt (cs : List Char) : Option (List Char × List Char × List Char) :=
  let letters := cs.takeWhile isLetterAmp
  if letters.isEmpty then none
  else
    let r1 := cs.drop letters.length
    let spaces := r1.takeWhile (fun c => c == ' ')
    let r2 := r1.drop spaces.length
    let digits := r2.takeWhile isDigitCh
    if digits.isEmpty then none
    else
      let r3 := r2.drop digits.length
      if r3.head? == some '.' then
        if 2 ≤ digits.length then
          some (letters ++ spaces ++ digits.dropLast, letters,
            digits.drop (digits.length - 1) ++ r3)
        else none
      else some (letters ++ spaces ++ digits, letters, r3)

/-- Python `p.findall(text)` for the two-group prerequisite pattern: try a
match at each position from left to right, resuming after the end of every
match; fuelled as in `splitOnF`. -/
def findallF : Nat → List Char → List (List Char × List Char)
  | 0, _ => []
  | _ + 1, [] => []
  | fuel + 1, c :: t =>
    match tryMatchAt (c :: t) with
    | some (g1, g2, rest) => (g1, g2) :: findallF fuel rest
    | none => findallF fuel t

/-- Python `p.findall(text)`. -/
def findallC (cs : List Char) : List (List Char × List Char) :=
  findallF (cs.length + 1) cs

/-- The literal GPA noise phrases filtered by parse_prerequisites. -/
def noiseList : List (List Char) :=
  ["a 2".toList, "with 2".toList, "of 2".toList, "least 2".toList,
   "minimum 2".toList, "GPA 2".toList]

/-- The noise test of parse_prerequisites: membership in the tuple of GPA
phrases, or a match starting with "Level ". -/
def isNoise (g1 : List Char) : Bool :=
  noiseList.contains g1 || ("Level ".toList).isPrefixOf g1

/-- Python `str.isdigit()`: non-empty and all digits. -/
def pyIsDigit (cs : List Char) : Bool := !cs.isEmpty && cs.all isDigitCh

/-- The continuation test of parse_prerequisites: the match starts with "&",
"and ", "or ", "into ", or is purely numeric. -/
def isCont (g1 : List Char) : Bool :=
  ("&".toList).isPrefixOf g1 || ("and ".toList).isPrefixOf g1 ||
  ("or ".toList).isPrefixOf g1 || ("into ".toList).isPrefixOf g1 || pyIsDigit g1

/-- Python whitespace, for `str.strip()`. -/
def isPySpace (c : Char) : Bool :=
  c == ' ' || c == '\t' || c == '\n' || c == '\r' || c == '\x0b' || c == '\x0c'

/-- Python `str.strip()`. -/
def pyStrip (cs : List Char) : List Char :=
  ((cs.dropWhile isPySpace).reverse.dropWhile isPySpace).reverse

/-- Python `str.upper()` on ASCII text. -/
def pyUpper (cs : List Char) : List Char := cs.map Char.toUpper

/-- The replacement chain applied to continuation matches in the source:
i[0].replace('and ', '').replace('into ', '').replace('or ', ''). -/
def stripConts (g1 : List Char) : List Char :=
  pyRemoveAll ("or ".toList)
    (pyRemoveAll ("into ".toList) (pyRemoveAll ("and ".toList) g1))

/-- Python '%s' interpolation of the running department variable, which
prints the literal text "None" while no full reference has been seen. -/
def renderDept : Option (List Char) → List Char
  | none => "None".toList
  | some d => d

/-- The classification loop of parse_prerequisites over the findall matches.
A result of `none` models the AttributeError Python would raise if the
re-match of a full reference returned no match object (unreachable for
matches produced by findall, as proved below). -/
def processMatches : Option (List Char) → List (List Char × List Char) →
    Option (List (List Char))
  | _, [] => some []
  | prevDept, m :: rest =>
    if isNoise m.1 then processMatches prevDept rest
    else if isCont m.1 then
      (processMatches prevDept rest).map
        (fun l => (renderDept prevDept ++ stripConts m.1) :: l)
    else
      match tryMatchAt m.1 with
      | some r => (processMatches (some r.2.1) rest).map
          (fun l => pyUpper (pyStrip m.1) :: l)
      | none => none

/-- Code-point lexicographic comparison, Python string `<=`. -/
def lexLe : List Char → List Char → Bool
  | [], _ => true
  | _ :: _, [] => false
  | a :: ta, b :: tb => if a == b then lexLe ta tb else decide (a < b)

/-- Insert into a sorted list of strings, keeping ascending order. -/
def insertLe (x : List Char) : List (List Char) → List (List Char)
  | [] => [x]
  | y :: ys => if lexLe x y then x :: y :: ys else y :: insertLe x ys

/-- Python `sorted` on a list of strings (ascending code-point order). -/
def sortLex : List (List Char) → List (List Char)
  | [] => []
  | x :: xs => insertLe x (sortLex xs)

/-- The pipeline tail of parse_prerequisites:
sorted([i.replace(' ', '') for i in prerequisites]). -/
def normalizeOut (l : List (List Char)) : List String :=
  (sortLex (l.map (fun cs => cs.filter (fun c => !(c == ' '))))).map List.asString

/-- description.split('Coreqs:')[0]. -/
def beforeCoreqs (cs : List Char) : List Char :=
  (pySplit ("Coreqs:".toList) cs).headI

/-- description.split('Coreqs:')[0].split('Prereq:'). -/
def prereqParts (cs : List Char) : List (List Char) :=
  pySplit ("Prereq:".toList) (beforeCoreqs cs)

/-- The first clause parts[0], where
parts = description.split('Coreqs:')[0].split('Prereq:')[1].split('.');
`none` models the IndexError raised when index [1] does not exist. -/
def clauseOf (cs : List Char) : Option (List Char) :=
  match prereqParts cs with
  | _ :: p1 :: _ => some ((pySplit (".".toList) p1).headI)
  | _ => none

/-- parse_prerequisites of sccourses.py, as a function of the description
text of the course node; `none` models an uncaught exception. -/
def parse_prerequisites (description : String) : Option (List String) :=
  if isSubstr ("Prereq:".toList) description.toList then
    match clauseOf description.toList with
    | some clause => (processMatches none (findallC clause)).map normalizeOut
    | none => none
  else some []

/-- The Course namedtuple: college, department, code, name, credits, tags,
prerequisites, in declaration order.  The float credit value is modelled as a
rational (credit values are finite decimals, on which float comparison agrees
with rational comparison). -/
structure Course where
  college : String
  department : String
  code : String
  name : String
  credits : ℚ
  tags : List String
  prerequisites : List String
deriving DecidableEq

/-- Course.__eq__: equality looks only at (college, department, code). -/
def courseEq (a b : Course) : Bool :=
  a.college == b.college && a.department == b.department && a.code == b.code

/-- The key tuple (self.college, self.department, self.code) hashed by
Course.__hash__. -/
def courseKey (c : Course) : String × String × String :=
  (c.college, c.department, c.code)

/-- Course.__hash__: hash of the (college, department, code) tuple. -/
def courseHash (c : Course) : UInt64 := hash (courseKey c)

/-- Adding one course to a Python set of courses: kept out if an element
equal under Course.__eq__ is already present. -/
def insertCourse (l : List Course) (c : Course) : List Course :=
  if l.any (fun x => courseEq x c) then l else l ++ [c]

/-- Python set union `courses |= new`, element by element. -/
def unionCourses (acc cs : List Course) : List Course :=
  cs.foldl insertCourse acc

/-- The natural (inherited tuple) ordering key of a Course: lexicographic
over the fields in declaration order.  Course.__lt__ is not overridden, so
sorted(courses) compares field tuples lexicographically. -/
def toKey (c : Course) :
    Lex (String × Lex (String × Lex (String × Lex (String ×
      Lex (ℚ × Lex (List String × List String)))))) :=
  toLex (c.college, toLex (c.department, toLex (c.code, toLex (c.name,
    toLex (c.credits, toLex (c.tags, c.prerequisites))))))

/-- The comparison used by sorted(courses) in export_courses. -/
def courseLe (a b : Course) : Prop := toKey a ≤ toKey b

instance : DecidableRel courseLe := fun a b =>
  inferInstanceAs (Decidable (toKey a ≤ toKey b))

instance : IsTotal Course courseLe := ⟨fun a b => le_total (toKey a) (toKey b)⟩

instance : IsTrans Course courseLe := ⟨fun _ _ _ h1 h2 => le_trans h1 h2⟩

/-- The fixed header row written by export_courses. -/
def headerRow : List String :=
  ["College", "Department", "Code", "Name", "Credits", "Tags", "Prerequisites"]

/-- The cells of one data row written by export_courses: tags and
prerequisites are flattened with ','.join.  The rendering of the float
credit value is abstracted by toString. -/
def courseRow (c : Course) : List String :=
  [c.college, c.department, c.code, c.name, toString c.credits,
   String.intercalate "," c.tags, String.intercalate "," c.prerequisites]

/-- export_courses of sccourses.py: one header row, then one row per course
in ascending sorted order.  The output models the sequence of writerow calls
(each row is the list of its cells). -/
def export_courses (courses : List Course) : List (List String) :=
  headerRow :: (List.insertionSort courseLe courses).map courseRow

/-- The (College, Department, Code) cells of an exported data row, as read
back by splitting the row into fields. -/
def rowTriple (row : List String) : String × String × String :=
  (row.headI, (row.drop 1).headI, (row.drop 2).headI)

/-- The term loop of main for one institution.  Each list entry is the
outcome of one quarter iteration: `some cs` when load_quarter and
extract_courses succeed with course list `cs` (merged into the accumulator
by the set union `courses |= ...`), `none` when a WebDriverException is
raised inside that iteration.  The source wraps the whole while loop in one
try block: on the first fault the except handler logs, re-acquires the
quarter selector, and falls through, so the loop is never re-entered and the
remaining quarters of the institution are not visited. -/
def term_loop : List (Option (List Course)) → List Course → List Course
  | [], acc => acc
  | some cs :: rest, acc => term_loop rest (unionCourses acc cs)
  | none :: _, acc => acc

/-- The per-course texts the browser driver yields for one course node. -/
structure CourseNode where
  title : String
  courseTitle : String
  credits : ℚ
  tags : List String
  description : String

/-- re.match(r'([A-Z&]+) *(\d+)', title): anchored at the start, greedy runs
of uppercase letters or '&', then spaces, then digits; returns
(group 1, group 2). -/
def titleMatch (cs : List Char) : Option (List Char × List Char) :=
  let letters := cs.takeWhile (fun c => (65 ≤ c.toNat && c.toNat ≤ 90) || c == '&')
  if letters.isEmpty then none
  else
    let r1 := cs.drop letters.length
    let spaces := r1.takeWhile (fun c => c == ' ')
    let r2 := r1.drop spaces.length
    let digits := r2.takeWhile isDigitCh
    if digits.isEmpty then none else some (letters, digits)

/-- parse_course of sccourses.py as a function of the extracted node texts.
`tc` is the external titlecase.titlecase collaborator.  `.ok none` models the
skip-with-warning path taken when the title does not match the course-code
grammar; `.error ()` models an exception escaping (the IndexError of
parse_prerequisites).  Parsing of the credits text by float() is not
modelled: the node carries the numeric value. -/
def parse_course (tc : String → String) (college : String) (n : CourseNode) :
    Except Unit (Option Course) :=
  match titleMatch n.title.toList with
  | none => .ok none
  | some (dept, code) =>
    match parse_prerequisites n.description with
    | none => .error ()
    | some prereqs =>
      .ok (some ⟨tc college, dept.asString, code.asString, tc n.courseTitle,
        n.credits, n.tags, prereqs⟩)

/-- The course loop of get_courses: parse each course node in order,
appending the parsed record when one is produced and continuing past nodes
whose course evaluates to None. -/
def get_courses (tc : String → String) (college : String) :
    List CourseNode → Except Unit (List Course)
  | [] => .ok []
  | n :: rest =>
    match parse_course tc college n with
    | .error e => .error e
    | .ok none => get_courses tc college rest
    | .ok (some c) =>
      match get_courses tc college rest with
      | .error e => .error e
      | .ok cs => .ok (c :: cs)

/-- takeWhile on an append where every left element passes and every right
element fails returns exactly the left part. -/
theorem takeWhile_append_eq (p : Char → Bool) (xs ys : List Char)
    (h1 : ∀ a ∈ xs, p a = true) (h2 : ∀ a ∈ ys, p a = false) :
    (xs ++ ys).takeWhile p = xs := by
  induction xs with
  | nil =>
    simp only [List.nil_append]
    cases ys with
    | nil => rfl
    | cons b t => simp [List.takeWhile_cons, h2 b (by simp)]
  | cons a t ih =>
    have ha : p a = true := h1 a (by simp)
    simp [List.takeWhile_cons, ha, ih (fun x hx => h1 x (by simp [hx]))]

/-- An ASCII digit is not in the class [A-Za-z&]. -/
theorem digit_not_letterAmp {c : Char} (h : isDigitCh c = true) :
    isLetterAmp c = false := by
  have hne : c ≠ '&' := by
    intro he
    rw [he] at h
    simp [isDigitCh] at h
  have hb : (c == '&') = false := beq_eq_false_iff_ne.2 hne
  simp only [isDigitCh, Bool.and_eq_true, decide_eq_true_eq] at h
  simp only [isLetterAmp, isAsciiLetter, hb, Bool.or_false,
    Bool.or_eq_false_iff, Bool.and_eq_false_iff, decide_eq_false_iff_not]
  omega

/-- An ASCII digit is not a space. -/
theorem digit_not_space {c : Char} (h : isDigitCh c = true) :
    (c == ' ') = false := by
  apply beq_eq_false_iff_ne.2
  intro he
  rw [he] at h
  simp [isDigitCh] at h

/-- Shape of a successful match: group 1 is group 2 followed by a space run
followed by a non-empty digit run. -/
theorem tryMatchAt_some_shape {cs g1 g2 rest : List Char}
    (h : tryMatchAt cs = some (g1, g2, rest)) :
    ∃ spaces ds, g1 = g2 ++ (spaces ++ ds) ∧ g2 ≠ [] ∧ ds ≠ [] ∧
      (∀ a ∈ g2, isLetterAmp a = true) ∧ (∀ a ∈ spaces, a = ' ') ∧
      (∀ a ∈ ds, isDigitCh a = true) := by
  simp only [tryMatchAt] at h
  split at h
  · exact absurd h (by simp)
  · split at h
    · exact absurd h (by simp)
    · rename_i hL hD
      split at h
      · split at h
        · rename_i hdot hlen
          simp only [Option.some.injEq, Prod.mk.injEq] at h
          obtain ⟨hg1, hg2, _⟩ := h
          refine ⟨(cs.drop (cs.takeWhile isLetterAmp).length).takeWhile
              (fun c => c == ' '),
            (((cs.drop (cs.takeWhile isLetterAmp).length).drop
              ((cs.drop (cs.takeWhile isLetterAmp).length).takeWhile
                (fun c => c == ' ')).length).takeWhile isDigitCh).dropLast,
            ?_, ?_, ?_, ?_, ?_, ?_⟩
          · rw [← hg1, ← hg2, List.append_assoc]
          · rw [← hg2]
            intro he
            rw [he] at hL
            simp at hL
          · apply List.length_pos.1
            rw [List.length_dropLast]
            omega
          · rw [← hg2]
            intro a ha
            exact List.mem_takeWhile_imp ha
          · intro a ha
            have := List.mem_takeWhile_imp ha
            exact eq_of_beq this
          · intro a ha
            exact List.mem_takeWhile_imp (List.dropLast_subset _ ha)
        · exact absurd h (by simp)
      · rename_i hdot
        simp only [Option.some.injEq, Prod.mk.injEq] at h
        obtain ⟨hg1, hg2, _⟩ := h
        refine ⟨(cs.drop (cs.takeWhile isLetterAmp).length).takeWhile
            (fun c => c == ' '),
          ((cs.drop (cs.takeWhile isLetterAmp).length).drop
            ((cs.drop (cs.takeWhile isLetterAmp).length).takeWhile
              (fun c => c == ' ')).length).takeWhile isDigitCh,
          ?_, ?_, ?_, ?_, ?_, ?_⟩
        · rw [← hg1, ← hg2, List.append_assoc]
        · rw [← hg2]
          intro he
          rw [he] at hL
          simp at hL
        · intro he
          rw [he] at hD
          simp at hD
        · rw [← hg2]
          intro a ha
          exact List.mem_takeWhile_imp ha
        · intro a ha
          have := List.mem_takeWhile_imp ha
          exact eq_of_beq this
        · intro a ha
          exact List.mem_takeWhile_imp ha

/-- Re-matching the pattern against its own group 1 succeeds, reproduces
group 2, and consumes the whole string: p.match(i[0]).group(2) in the source
always yields the department prefix of the match. -/
theorem tryMatchAt_rematch {cs g1 g2 rest : List Char}
    (h : tryMatchAt cs = some (g1, g2, rest)) :
    tryMatchAt g1 = some (g1, g2, []) := by
  obtain ⟨spaces, ds, hg1, hg2ne, hdsne, hl, hs, hd⟩ := tryMatchAt_some_shape h
  have hsp : ∀ a ∈ spaces ++ ds, isLetterAmp a = false := by
    intro a ha
    rcases List.mem_append.1 ha with h1 | h1
    · rw [hs a h1]
      decide
    · exact digit_not_letterAmp (hd a h1)
  have h1 : (g2 ++ (spaces ++ ds)).takeWhile isLetterAmp = g2 :=
    takeWhile_append_eq _ _ _ hl hsp
  have h2 : (g2 ++ (spaces ++ ds)).drop g2.length = spaces ++ ds :=
    List.drop_left _ _
  have h3 : (spaces ++ ds).takeWhile (fun c => c == ' ') = spaces := by
    apply takeWhile_append_eq
    · intro a ha
      rw [hs a ha]
      decide
    · intro a ha
      exact digit_not_space (hd a ha)
  have h4 : (spaces ++ ds).drop spaces.length = ds := List.drop_left _ _
  have h5 : ds.takeWhile isDigitCh = ds := by
    have h6 := takeWhile_append_eq isDigitCh ds [] hd (by simp)
    simpa using h6
  have hg2e : g2.isEmpty = false := by
    cases g2 with
    | nil => exact absurd rfl hg2ne
    | cons a t => rfl
  have hdse : ds.isEmpty = false := by
    cases ds with
    | nil => exact absurd rfl hdsne
    | cons a t => rfl
  rw [hg1]
  simp only [tryMatchAt, h1, h2, h3, h4, h5, hg2e, hdse, List.drop_length]
  simp [List.append_assoc]

/-- Every match returned by findall re-matches against itself. -/
theorem findallF_rematch : ∀ (fuel : Nat) (cs g1 g2 : List Char),
    (g1, g2) ∈ findallF fuel cs → tryMatchAt g1 = some (g1, g2, []) := by
  intro fuel
  induction fuel with
  | zero =>
    intro cs g1 g2 h
    simp [findallF] at h
  | succ n ih =>
    intro cs g1 g2 h
    cases cs with
    | nil => simp [findallF] at h
    | cons c t =>
      rcases hm : tryMatchAt (c :: t) with _ | ⟨m1, m2, rest⟩
      · rw [findallF, hm] at h
        exact ih t g1 g2 h
      · rw [findallF, hm] at h
        rcases List.mem_cons.1 h with he | hmem
        · obtain ⟨e1, e2⟩ := Prod.mk.injEq .. ▸ he
          subst e1
          subst e2
          exact tryMatchAt_rematch hm
        · exact ih rest g1 g2 hmem

/-- The classification loop cannot hit the unreachable AttributeError branch
when every match re-matches against itself. -/
theorem processMatches_isSome :
    ∀ (ms : List (List Char × List Char)) (pd : Option (List Char)),
    (∀ m ∈ ms, (tryMatchAt m.1).isSome = true) →
    (processMatches pd ms).isSome = true := by
  intro ms
  induction ms with
  | nil =>
    intro pd _
    simp [processMatches]
  | cons m rest ih =>
    intro pd h
    have hrest : ∀ x ∈ rest, (tryMatchAt x.1).isSome = true :=
      fun x hx => h x (by simp [hx])
    simp only [processMatches]
    split
    · exact ih pd hrest
    · split
      · rw [Option.isSome_map']
        exact ih pd hrest
      · rcases hm : tryMatchAt m.1 with _ | r
        · have hh := h m (by simp)
          rw [hm] at hh
          simp at hh
        · rw [Option.isSome_map']
          exact ih (some r.2.1) hrest

/-- Noise matches are skipped without touching the department state. -/
theorem processMatches_skip_noise :
    ∀ (pre : List (List Char × List Char)) (pd : Option (List Char))
      (ms : List (List Char × List Char)),
    (∀ x ∈ pre, isNoise x.1 = true) →
    processMatches pd (pre ++ ms) = processMatches pd ms := by
  intro pre
  induction pre with
  | nil =>
    intro pd ms _
    rfl
  | cons x t ih =>
    intro pd ms h
    have hx : isNoise x.1 = true := h x (by simp)
    simp only [List.cons_append, processMatches, hx, if_true]
    exact ih pd ms (fun y hy => h y (by simp [hy]))

/-- The Python split never yields an empty list of parts. -/
theorem splitOnF_ne_nil (sep : List Char) :
    ∀ (fuel : Nat) (cs : List Char), splitOnF sep fuel cs ≠ [] := by
  intro fuel
  cases fuel with
  | zero =>
    intro cs
    simp [splitOnF]
  | succ n =>
    intro cs
    cases cs with
    | nil => simp [splitOnF]
    | cons c t =>
      simp only [splitOnF]
      split
      · simp
      · split
        · simp
        · simp

/-- When the separator occurs in the string and the fuel exceeds the string
length, the split has at least two parts. -/
theorem splitOnF_two_parts (sep : List Char) (hsep : sep ≠ []) :
    ∀ (fuel : Nat) (cs : List Char), cs.length < fuel →
    isSubstr sep cs = true → 2 ≤ (splitOnF sep fuel cs).length := by
  intro fuel
  induction fuel with
  | zero =>
    intro cs hlen
    omega
  | succ n ih =>
    intro cs hlen hsub
    cases cs with
    | nil =>
      rw [isSubstr] at hsub
      rw [List.isEmpty_iff] at hsub
      exact absurd hsub hsep
    | cons c t =>
      simp only [splitOnF]
      split
      · have hne := splitOnF_ne_nil sep n ((c :: t).drop sep.length)
        have hl := List.length_pos.2 hne
        simp only [List.length_cons]
        omega
      · rename_i hpre
        rw [Bool.not_eq_true] at hpre
        rw [isSubstr, hpre, Bool.false_or] at hsub
        have hlt : t.length < n := by
          simp only [List.length_cons] at hlen
          omega
        have h2 := ih t hlt hsub
        split
        · rename_i hnone
          exact absurd hnone (splitOnF_ne_nil sep n t)
        · rename_i h r hsome
          rw [hsome] at h2
          simpa using h2

/-- A list of length at least two starts with two explicit elements. -/
theorem exists_two_cons {α : Type} {l : List α} (h : 2 ≤ l.length) :
    ∃ a b t, l = a :: b :: t := by
  cases l with
  | nil => simp at h
  | cons a t =>
    cases t with
    | nil => simp at h
    | cons b r => exact ⟨a, b, r, rfl⟩

/-- C1: in main, a WebDriverException during the term at index N does not
cause term N to be retried: the except handler sits outside the while loop,
so the loop is abandoned and the remaining terms of the institution are
skipped.  At the failing input (fault at term 0, term 1 would deliver one
course) the loop returns no courses, although running the second term alone
would deliver its course. -/
theorem claim_c1_fault_aborts_institution :
    term_loop [none, some [⟨"Central", "MATH", "101", "Calculus I", 5, [], []⟩]]
        [] = [] ∧
      term_loop [some [⟨"Central", "MATH", "101", "Calculus I", 5, [], []⟩]] [] =
        [⟨"Central", "MATH", "101", "Calculus I", 5, [], []⟩] :=
  ⟨rfl, rfl⟩

/-- C2 counterexample: parse applied to
"Prereq: minimum 2.0 GPA and MATH 097." does not return ["MATH097"]. -/
theorem claim_c2_counterexample :
    parse_prerequisites "Prereq: minimum 2.0 GPA and MATH 097." ≠
      some ["MATH097"] := by
  decide

/-- C2 amended: splitting the Prereq text into clauses on '.' cuts at the
decimal point of "2.0", so the first clause is " minimum 2", whose only
grammar match "minimum 2" is discarded as GPA noise; MATH 097 lies beyond
the first clause and is never scanned, and the parse returns []. -/
theorem claim_c2_amended :
    parse_prerequisites "Prereq: minimum 2.0 GPA and MATH 097." = some [] := by
  decide

/-- C3 counterexample: parse applied to "Prereq: ENGL& 101 and 102." does
not return ["ENGL101", "ENGL102"]. -/
theorem claim_c3_counterexample :
    parse_prerequisites "Prereq: ENGL& 101 and 102." ≠
      some ["ENGL101", "ENGL102"] := by
  decide

/-- C3 amended: the department token keeps its '&' (normalization uppercases
and removes spaces but never strips '&'), and the bare numeric continuation
inherits that department, so the parse returns ["ENGL&101", "ENGL&102"]. -/
theorem claim_c3_amended :
    parse_prerequisites "Prereq: ENGL& 101 and 102." =
      some ["ENGL&101", "ENGL&102"] := by
  decide

/-- C4 counterexample: when "Prereq:" occurs only after "Coreqs:", the
index [1] into the Prereq split of the part before "Coreqs:" does not exist
and parse_prerequisites raises IndexError (modelled by none), refuting the
claim that no description ever raises. -/
theorem claim_c4_counterexample :
    parse_prerequisites "Coreqs: MATH 101. Prereq: MATH 102." = none := by
  decide

/-- C4 amended: parse_prerequisites returns a value (raises no error) for
every description whose part before the first "Coreqs:" contains "Prereq:";
descriptions without the marker return [], and only descriptions whose
"Prereq:" markers all lie after "Coreqs:" raise. -/
theorem claim_c4_amended (description : String)
    (h : isSubstr ("Prereq:".toList) (beforeCoreqs description.toList) = true) :
    (parse_prerequisites description).isSome = true := by
  have h2 : 2 ≤ (prereqParts description.toList).length := by
    unfold prereqParts pySplit
    exact splitOnF_two_parts _ (by decide) _ _ (Nat.lt_succ_self _) h
  obtain ⟨a, b, t, he⟩ := exists_two_cons h2
  have hcl : clauseOf description.toList =
      some ((pySplit (".".toList) b).headI) := by
    unfold clauseOf
    rw [he]
  unfold parse_prerequisites
  split
  · rw [hcl, Option.isSome_map']
    apply processMatches_isSome
    intro m hm
    have hr := findallF_rematch _ _ m.1 m.2 (by simpa using hm)
    rw [hr]
    rfl
  · rfl

/-- C4 witness: a well-formed description satisfies the hypothesis and the
parse returns a value. -/
theorem claim_c4_witness :
    isSubstr ("Prereq:".toList) (beforeCoreqs ("Prereq: MATH& 151.".toList)) =
        true ∧
      (parse_prerequisites "Prereq: MATH& 151.").isSome = true :=
  ⟨by decide, claim_c4_amended "Prereq: MATH& 151." (by decide)⟩

/-- C5: Course equality and hash look only at (college, department, code):
records agreeing on the triple compare equal, hash identically, and a set
built from both retains exactly one. -/
theorem claim_c5_identity (c1 c2 : Course)
    (h1 : c1.college = c2.college) (h2 : c1.department = c2.department)
    (h3 : c1.code = c2.code) :
    courseEq c1 c2 = true ∧ courseHash c1 = courseHash c2 ∧
      (insertCourse (insertCourse [] c1) c2).length = 1 := by
  have he : courseEq c1 c2 = true := by
    simp [courseEq, h1, h2, h3]
  refine ⟨he, ?_, ?_⟩
  · unfold courseHash courseKey
    rw [h1, h2, h3]
  · simp [insertCourse, he]

/-- C5 witness: two concrete records with the same triple but different
name, credits, tags and prerequisites. -/
theorem claim_c5_witness :
    courseEq ⟨"Central", "MATH", "101", "Calculus I", 5, [], []⟩
        ⟨"Central", "MATH", "101", "Calc", 4, ["online"], ["MATH098"]⟩ = true ∧
      courseHash ⟨"Central", "MATH", "101", "Calculus I", 5, [], []⟩ =
        courseHash ⟨"Central", "MATH", "101", "Calc", 4, ["online"], ["MATH098"]⟩ ∧
      (insertCourse
        (insertCourse [] ⟨"Central", "MATH", "101", "Calculus I", 5, [], []⟩)
        ⟨"Central", "MATH", "101", "Calc", 4, ["online"], ["MATH098"]⟩).length = 1 :=
  claim_c5_identity _ _ rfl rfl rfl

/-- C6: export_courses emits the fixed header row followed by one data row
per record, the records ordered ascending by the tuple of fields in
declaration order (college, department, code, name, credits, tags,
prerequisites), with tags and prerequisites comma-joined inside courseRow. -/
theorem claim_c6_export_sorted (courses : List Course) :
    ∃ l2, courses.Perm l2 ∧ List.Sorted courseLe l2 ∧
      export_courses courses = headerRow :: l2.map courseRow :=
  ⟨List.insertionSort courseLe courses,
    (List.perm_insertionSort courseLe courses).symm,
    List.sorted_insertionSort courseLe courses, rfl⟩

/-- C9: exporting a collection of courses and splitting the data rows back
into fields recovers exactly the set of (college, department, code)
triples of the input. -/
theorem claim_c9_roundtrip (courses : List Course) :
    ((export_courses courses).tail.map rowTriple).toFinset =
      (courses.map courseKey).toFinset := by
  unfold export_courses
  simp only [List.tail_cons, List.map_map]
  exact List.toFinset_eq_of_perm _ _
    ((List.perm_insertionSort courseLe courses).map (rowTriple ∘ courseRow))

/-- C7: a description without the literal marker "Prereq:" parses to the
empty prerequisite list without error. -/
theorem claim_c7_no_marker_empty (description : String)
    (h : isSubstr ("Prereq:".toList) description.toList = false) :
    parse_prerequisites description = some [] := by
  unfold parse_prerequisites
  rw [h]
  simp

/-- C7 witness: "No prerequisites." lacks the marker and parses to []. -/
theorem claim_c7_witness :
    isSubstr ("Prereq:".toList) ("No prerequisites.".toList) = false ∧
      parse_prerequisites "No prerequisites." = some [] :=
  ⟨by decide, claim_c7_no_marker_empty "No prerequisites." (by decide)⟩

/-- C8: a course node whose title does not match the LETTERS DIGITS grammar
produces no record (parse_course returns None after the logged warning) and
the loop over the remaining course nodes continues unchanged. -/
theorem claim_c8_skip_bad_title (tc : String → String) (college : String)
    (n : CourseNode) (rest : List CourseNode)
    (h : titleMatch n.title.toList = none) :
    parse_course tc college n = .ok none ∧
      get_courses tc college (n :: rest) = get_courses tc college rest := by
  have hp : parse_course tc college n = .ok none := by
    unfold parse_course
    rw [h]
  exact ⟨hp, by simp only [get_courses, hp]⟩

/-- C8 witness: a lower-case title fails the [A-Z&]+ *\d+ grammar, the
course is skipped and the loop result matches that of the remaining list. -/
theorem claim_c8_witness :
    titleMatch ("math 101".toList) = none ∧
      (parse_course (fun s => s) "central" ⟨"math 101", "Calculus", 5, [], ""⟩ =
          .ok none ∧
        get_courses (fun s => s) "central"
            [⟨"math 101", "Calculus", 5, [], ""⟩] =
          get_courses (fun s => s) "central" []) :=
  ⟨by decide,
    claim_c8_skip_bad_title (fun s => s) "central"
      ⟨"math 101", "Calculus", 5, [], ""⟩ [] (by decide)⟩

/-- C10: when the first match of the first Prereq clause that survives the
noise filter is a continuation and no full reference precedes it, the parse
does not crash: it emits for that match the rendering "None" of the unset
department followed by the remainder of the match, and the final output is
the normalization of that list. -/
theorem claim_c10_none_marker (s : String) (c : List Char)
    (pre rest : List (List Char × List Char)) (m : List Char × List Char)
    (h0 : isSubstr ("Prereq:".toList) s.toList = true)
    (h1 : clauseOf s.toList = some c)
    (h2 : findallC c = pre ++ m :: rest)
    (h3 : ∀ x ∈ pre, isNoise x.1 = true)
    (h4 : isNoise m.1 = false)
    (h5 : isCont m.1 = true) :
    ∃ out, processMatches none (findallC c) =
        some (("None".toList ++ stripConts m.1) :: out) ∧
      parse_prerequisites s =
        some (normalizeOut (("None".toList ++ stripConts m.1) :: out)) := by
  have hrest : ∀ x ∈ rest, (tryMatchAt x.1).isSome = true := by
    intro x hx
    have hmem : (x.1, x.2) ∈ findallC c := by
      rw [h2]
      simp [hx]
    have hr := findallF_rematch _ _ x.1 x.2 hmem
    rw [hr]
    rfl
  have hsome := processMatches_isSome rest none hrest
  rcases hout : processMatches none rest with _ | out
  · rw [hout] at hsome
    simp at hsome
  · have hAll : processMatches none (findallC c) =
        some (("None".toList ++ stripConts m.1) :: out) := by
      rw [h2, processMatches_skip_noise pre none _ h3]
      simp [processMatches, h4, h5, hout, renderDept]
    refine ⟨out, hAll, ?_⟩
    unfold parse_prerequisites
    rw [h0, h1]
    simp [hAll]

/-- C10 witness: "Prereq: and 102." has a single continuation match with no
preceding full reference; parse emits "None102". -/
theorem claim_c10_witness :
    ∃ out, processMatches none (findallC (" and 102".toList)) =
        some (("None".toList ++ stripConts ("and 102".toList)) :: out) ∧
      parse_prerequisites "Prereq: and 102." =
        some (normalizeOut
          (("None".toList ++ stripConts ("and 102".toList)) :: out)) :=
  claim_c10_none_marker "Prereq: and 102." (" and 102".toList) []
    [] ("and 102".toList, "and".toList) (by decide) (by decide) (by decide)
    (by simp) (by decide) (by decide)
